import Mathlib

/-!
# Verification of the claude-learning-assistant core

Shallow embedding of the repository's core components and proofs about them:

* `TokenTracker`        — `src/core/token-tracker.js`
* `CacheManager`        — `src/core/cache-manager.js`
* `ConversationManager` — `src/core/conversation-manager.js`
* `CleverAssistant`     — `src/services/clever-assistant.js`
* `Config`              — `config.js`

Modelling conventions:

* JS numbers that hold money, temperatures or prices are modelled as `ℚ`;
  token counts, sizes and millisecond timestamps as `ℕ`.  Expiry comparisons
  such as `Date.now() - createdAt > ttl` are computed in `ℤ` so that they
  agree with JS arithmetic for every choice of natural timestamps.
* A JS `Map` is modelled as an insertion-ordered association list
  (`List (κ × β)`): `Map.set` of an existing key updates the entry in place,
  a new key is appended, `Map.delete` removes the entry.
* Fields that may be `undefined` are modelled as `Option`; values that range
  over `undefined`/`null`/string (relevant because `JSON.stringify` drops
  `undefined`-valued fields but keeps `null`) are modelled by `JsStr`.
* The remote model call is an oracle parameter (`ApiOutcome`): the caller of
  `chat`/`sendMessage` supplies what the upstream would have answered, and the
  functions additionally report whether that oracle was consulted.
* File-system persistence is modelled by the pure snapshot functions
  `CacheManager.save`/`CacheManager.load`; the source's logging and its
  `fs` calls do not affect the in-memory state that the claims are about.
* Environment variables are taken absent, so every `process.env.X || d`
  configuration constant is its documented default `d`.
-/

/-- A JS value that is either `undefined`, `null`, or a string.
`JSON.stringify` drops `undefined`-valued object fields but serializes
`null`, so the three cases must be kept apart. -/
inductive JsStr where
  | undef
  | null
  | str (s : String)
deriving DecidableEq, Repr

/-- JS truthiness of a `JsStr` (only a non-empty string is truthy). -/
def JsStr.truthy : JsStr → Bool
  | .str s => s ≠ ""
  | _ => false

/-- JS `v || d` for an optional string: `undefined` and `""` fall back to `d`. -/
def jsOrStr (v : Option String) (d : String) : String :=
  match v with
  | none => d
  | some s => if s = "" then d else s

/-- JS `v || d` for an optional number: `undefined`/`null` and `0` fall back to `d`. -/
def jsOrNat (v : Option Nat) (d : Nat) : Nat :=
  match v with
  | none => d
  | some n => if n = 0 then d else n

/-- JS truthiness of `Option String` (`null`/`undefined` and `""` are falsy). -/
def jsTruthyOptStr : Option String → Bool
  | none => false
  | some s => s ≠ ""

/-! ## Config (`config.js`), with every environment variable absent -/

/-- `process.env.DEFAULT_MODEL || 'claude-3-5-sonnet-20241022'`. -/
def Config.DEFAULT_MODEL : String := "claude-3-5-sonnet-20241022"

/-- `parseInt(process.env.DEFAULT_MAX_TOKENS || '1024')`. -/
def Config.DEFAULT_MAX_TOKENS : Nat := 1024

/-- `parseFloat(process.env.BUDGET_LIMIT || '0.50')`. -/
def Config.BUDGET_LIMIT : ℚ := 1/2

/-- `parseFloat(process.env.WARN_THRESHOLD || '0.80')`. -/
def Config.WARN_THRESHOLD : ℚ := 4/5

/-- `parseInt(process.env.CACHE_MAX_SIZE || '100')`. -/
def Config.CACHE_MAX_SIZE : Nat := 100

/-- One row of `Config.MODEL_PRICES` (dollars per million tokens). -/
structure ModelPrice where
  input : ℚ
  output : ℚ
  name : String
deriving DecidableEq, Repr

/-- The static `MODEL_PRICES` table from `config.js`. -/
def Config.MODEL_PRICES : String → Option ModelPrice := fun m =>
  if m = "claude-3-5-sonnet-20241022" then some ⟨3, 15, "Claude 3.5 Sonnet"⟩
  else if m = "claude-3-opus-20240229" then some ⟨15, 75, "Claude 3 Opus"⟩
  else if m = "claude-3-haiku-20240307" then some ⟨1/4, 5/4, "Claude 3 Haiku"⟩
  else if m = "GLM-4.7" then some ⟨1/2, 1/2, "智谱 GLM-4.7"⟩
  else none

/-- `Config.getModelPrice`: `MODEL_PRICES[model] || MODEL_PRICES[DEFAULT_MODEL]`.
The default model is present in the table, so the final fallback never fires. -/
def Config.getModelPrice (model : String) : ModelPrice :=
  match Config.MODEL_PRICES model with
  | some p => p
  | none => (Config.MODEL_PRICES Config.DEFAULT_MODEL).getD ⟨3, 15, "Claude 3.5 Sonnet"⟩

/-! ## TokenTracker (`src/core/token-tracker.js`) -/

/-- A call record pushed onto `callHistory` by `recordCall`. -/
structure CallRecord where
  timestamp : Nat
  requestId : String
  inputTokens : Nat
  outputTokens : Nat
  totalTokens : Nat
  model : String
  cost : ℚ
deriving DecidableEq, Repr

/-- The mutable state of a `TokenTracker`. -/
structure TokenTracker where
  budgetLimit : ℚ
  warnThreshold : ℚ
  totalInputTokens : Nat
  totalOutputTokens : Nat
  totalRequests : Nat
  callHistory : List CallRecord
deriving DecidableEq, Repr

/-- `new TokenTracker(budgetLimit)` (constructor runs `reset()` then sets the limits). -/
def TokenTracker.init (budgetLimit : ℚ) : TokenTracker :=
  ⟨budgetLimit, Config.WARN_THRESHOLD, 0, 0, 0, []⟩

/-- `reset()`: zero the totals and drop the history; limits are untouched. -/
def TokenTracker.reset (t : TokenTracker) : TokenTracker :=
  { t with totalInputTokens := 0, totalOutputTokens := 0, totalRequests := 0,
           callHistory := [] }

/-- `calculateSingleCallCost(inputTokens, outputTokens, model)`. -/
def TokenTracker.calculateSingleCallCost (inputTokens outputTokens : Nat) (model : String) : ℚ :=
  let price := Config.getModelPrice model
  (inputTokens : ℚ) / 1000000 * price.input + (outputTokens : ℚ) / 1000000 * price.output

/-- `getTotalCost()`: `callHistory.reduce((sum, r) => sum + r.cost, 0)`. -/
def TokenTracker.getTotalCost (t : TokenTracker) : ℚ :=
  t.callHistory.foldl (fun sum record => sum + record.cost) 0

/-- The object returned by `checkBudget()`.  In the source `usagePercentage`
is rendered with `toFixed(2)`; the raw quotient is kept here. -/
structure BudgetStatus where
  currentCost : ℚ
  budgetLimit : ℚ
  remaining : ℚ
  usagePercentage : ℚ
  isOverBudget : Bool
  isNearLimit : Bool
deriving DecidableEq, Repr

/-- `checkBudget()`.  The method only reads tracker fields (and logs), so the
state it returns alongside the status is the unchanged tracker. -/
def TokenTracker.checkBudget (t : TokenTracker) : BudgetStatus × TokenTracker :=
  let currentCost := t.getTotalCost
  (⟨currentCost, t.budgetLimit, t.budgetLimit - currentCost,
    currentCost / t.budgetLimit * 100,
    decide (currentCost ≥ t.budgetLimit),
    decide (currentCost ≥ t.budgetLimit * t.warnThreshold)⟩, t)

/-- `recordCall(inputTokens, outputTokens, model, requestId)`: push a record
whose `cost` is computed now, bump the running totals, then evaluate
`checkBudget()` (logging only). -/
def TokenTracker.recordCall (t : TokenTracker) (inputTokens outputTokens : Nat)
    (model : String) (requestId : Option String) (now : Nat) :
    CallRecord × TokenTracker :=
  let record : CallRecord :=
    ⟨now, jsOrStr requestId ("req-" ++ toString now), inputTokens, outputTokens,
     inputTokens + outputTokens, model,
     TokenTracker.calculateSingleCallCost inputTokens outputTokens model⟩
  let t1 := { t with totalInputTokens := t.totalInputTokens + inputTokens,
                     totalOutputTokens := t.totalOutputTokens + outputTokens,
                     totalRequests := t.totalRequests + 1,
                     callHistory := t.callHistory ++ [record] }
  (record, (t1.checkBudget).2)

/-! ## CacheManager (`src/core/cache-manager.js`) -/

/-- A `CacheItem` (the `key` field of the source object is the map key and is
kept once, in the association list). -/
structure CacheItem (α : Type) where
  value : α
  createdAt : Nat
  ttl : Nat
  hits : Nat
deriving DecidableEq, Repr

/-- `CacheItem.isExpired()`: `Date.now() - createdAt > ttl`, evaluated in `ℤ`. -/
def CacheItem.isExpired (item : CacheItem α) (now : Nat) : Bool :=
  decide ((now : ℤ) - (item.createdAt : ℤ) > (item.ttl : ℤ))

/-- The `stats` record of a `CacheManager`. -/
structure CacheStats where
  hits : Nat
  misses : Nat
  sets : Nat
  deletes : Nat
  evictions : Nat
deriving DecidableEq, Repr

def CacheStats.zero : CacheStats := ⟨0, 0, 0, 0, 0⟩

/-- `Map.get`: first entry with the given key (keys are unique in a JS map). -/
def mapLookup [DecidableEq κ] : List (κ × β) → κ → Option β
  | [], _ => none
  | (k', v) :: rest, k => if k' = k then some v else mapLookup rest k

/-- `Map.set`: update in place if the key is present, append otherwise. -/
def mapInsert [DecidableEq κ] : List (κ × β) → κ → β → List (κ × β)
  | [], k, v => [(k, v)]
  | (k', v') :: rest, k, v =>
      if k' = k then (k, v) :: rest else (k', v') :: mapInsert rest k v

/-- `Map.delete` (the removal part; presence is tested with `mapHas`). -/
def mapRemove [DecidableEq κ] (l : List (κ × β)) (k : κ) : List (κ × β) :=
  l.filter (fun p => p.1 ≠ k)

/-- `Map.has`. -/
def mapHas [DecidableEq κ] (l : List (κ × β)) (k : κ) : Bool :=
  (mapLookup l k).isSome

/-- The mutable state of a `CacheManager`, generic in the key and value types. -/
structure CacheManager (κ α : Type) where
  enabled : Bool
  maxSize : Nat
  defaultTTL : Nat
  cache : List (κ × CacheItem α)
  accessOrder : List κ
  persistenceEnabled : Bool
  stats : CacheStats
deriving DecidableEq, Repr

/-- An empty cache as built by the constructor (with no persisted file to load):
`enabled`/`maxSize`/`persist` from the options, `defaultTTL` 3600000 ms. -/
def CacheManager.mk0 (κ α : Type) (enabled : Bool) (maxSize : Nat)
    (persist : Bool) : CacheManager κ α :=
  ⟨enabled, maxSize, 3600000, [], [], persist, CacheStats.zero⟩

/-- `updateAccessOrder(key)`: splice out the first occurrence (if any), push. -/
def CacheManager.updateAccessOrder [DecidableEq κ] (c : CacheManager κ α) (k : κ) :
    CacheManager κ α :=
  { c with accessOrder := c.accessOrder.erase k ++ [k] }

/-- `evictLRU()`: drop the head of `accessOrder` and its map entry. -/
def CacheManager.evictLRU [DecidableEq κ] (c : CacheManager κ α) : CacheManager κ α :=
  match c.accessOrder with
  | [] => c
  | lruKey :: rest =>
      { c with accessOrder := rest,
               cache := mapRemove c.cache lruKey,
               stats := { c.stats with evictions := c.stats.evictions + 1 } }

/-- `delete(key)`: remove from the map and from `accessOrder`, count a delete;
a missing key changes nothing and returns `false`. -/
def CacheManager.delete [DecidableEq κ] (c : CacheManager κ α) (k : κ) :
    Bool × CacheManager κ α :=
  if mapHas c.cache k then
    (true, { c with cache := mapRemove c.cache k,
                    accessOrder := c.accessOrder.filter (fun k' => k' ≠ k),
                    stats := { c.stats with deletes := c.stats.deletes + 1 } })
  else
    (false, c)

/-- `get(key)` at time `now`:
disabled → `null` with no stats change; absent → miss; expired → `delete`
then miss; fresh → move to most-recent, `touch()`, count a hit. -/
def CacheManager.get [DecidableEq κ] (c : CacheManager κ α) (now : Nat) (k : κ) :
    Option α × CacheManager κ α :=
  if c.enabled = false then (none, c)
  else
    match mapLookup c.cache k with
    | none => (none, { c with stats := { c.stats with misses := c.stats.misses + 1 } })
    | some item =>
      if item.isExpired now then
        let c1 := (c.delete k).2
        (none, { c1 with stats := { c1.stats with misses := c1.stats.misses + 1 } })
      else
        let c1 := c.updateAccessOrder k
        let c2 := { c1 with
          cache := mapInsert c1.cache k { item with hits := item.hits + 1 },
          stats := { c1.stats with hits := c1.stats.hits + 1 } }
        (some item.value, c2)

/-- `set(key, value, ttl)` at time `now`: disabled → `false`; at capacity with a
new key → `evictLRU()` first; then insert a fresh item (`ttl || defaultTTL`),
mark most-recent, count a set.  (When persistence is enabled the source then
writes the `save` snapshot to disk, which does not change the in-memory state.) -/
def CacheManager.set [DecidableEq κ] (c : CacheManager κ α) (now : Nat) (k : κ)
    (v : α) (ttl : Option Nat) : Bool × CacheManager κ α :=
  if c.enabled = false then (false, c)
  else
    let c1 := if c.maxSize ≤ c.cache.length ∧ mapHas c.cache k = false
              then c.evictLRU else c
    let item : CacheItem α := ⟨v, now, jsOrNat ttl c.defaultTTL, 0⟩
    let c2 := { c1 with cache := mapInsert c1.cache k item }
    let c3 := c2.updateAccessOrder k
    (true, { c3 with stats := { c3.stats with sets := c3.stats.sets + 1 } })

/-- `clear()`: drop all entries and zero the stats. -/
def CacheManager.clear (c : CacheManager κ α) : CacheManager κ α :=
  { c with cache := [], accessOrder := [], stats := CacheStats.zero }

/-- `cleanup()` at time `now`: walk the entries, `delete` every expired one,
return how many were removed.  (Deleting the entry under the iterator does not
change which later entries are visited, so the walk is over the initial list.) -/
def CacheManager.cleanup [DecidableEq κ] (c : CacheManager κ α) (now : Nat) :
    Nat × CacheManager κ α :=
  c.cache.foldl
    (fun acc p =>
      if (now : ℤ) - (p.2.createdAt : ℤ) > (p.2.ttl : ℤ)
      then (acc.1 + 1, (acc.2.delete p.1).2) else acc)
    (0, c)

/-- One entry of the persisted snapshot written by `save()`. -/
structure SavedItem (κ α : Type) where
  key : κ
  value : α
  createdAt : Nat
  ttl : Nat
  hits : Nat
deriving DecidableEq, Repr

/-- The persisted snapshot (`{version, savedAt, cache, stats}`). -/
structure SavedData (κ α : Type) where
  version : Nat
  savedAt : Nat
  cache : List (SavedItem κ α)
  stats : CacheStats
deriving DecidableEq, Repr

/-- `save()` as a pure projection: the JSON document the source writes. -/
def CacheManager.save (c : CacheManager κ α) (now : Nat) : SavedData κ α :=
  ⟨1, now,
   c.cache.map (fun p => ⟨p.1, p.2.value, p.2.createdAt, p.2.ttl, p.2.hits⟩),
   c.stats⟩

/-- `load()` of a snapshot at time `now`: clear the store, keep exactly the
saved items with `now - createdAt < ttl` (in saved order, which also rebuilds
`accessOrder`), restore the saved stats. -/
def CacheManager.load (c : CacheManager κ α) (data : SavedData κ α) (now : Nat) :
    CacheManager κ α :=
  let kept := data.cache.filter (fun it => (now : ℤ) - (it.createdAt : ℤ) < (it.ttl : ℤ))
  { c with cache := kept.map (fun it => (it.key, ⟨it.value, it.createdAt, it.ttl, it.hits⟩)),
           accessOrder := kept.map (fun it => it.key),
           stats := data.stats }

/-- The `options` argument of `generateKey` (fields may be `undefined`). -/
structure KeyOptions where
  model : Option String := none
  maxTokens : Option Nat := none
  temperature : Option ℚ := none
  systemPrompt : JsStr := .undef
deriving DecidableEq, Repr

/-- The canonical key data built by `generateKey` before hashing:
`{message, model: options.model || DEFAULT_MODEL,
maxTokens: options.maxTokens || DEFAULT_MAX_TOKENS,
temperature: options.temperature, systemPrompt: options.systemPrompt}`. -/
structure KeyData where
  message : String
  model : String
  maxTokens : Nat
  temperature : Option ℚ
  systemPrompt : JsStr
deriving DecidableEq, Repr

/-- `generateKey(message, options)`.  The source returns
`sha256(JSON.stringify(keyData)).substring(0, 16)`.  `JSON.stringify` is
injective on this record shape (field names tag every component,
`undefined`-valued fields are dropped while `null` is kept, string escaping is
injective), so the canonical pre-hash `KeyData` is modelled directly: equal
`KeyData` values yield equal keys in the source, and distinct `KeyData` values
yield distinct serializations, hence distinct keys up to a collision of the
truncated hash (a cryptographic event outside this embedding). -/
def CacheManager.generateKey (message : String) (options : KeyOptions) : KeyData :=
  ⟨message,
   jsOrStr options.model Config.DEFAULT_MODEL,
   jsOrNat options.maxTokens Config.DEFAULT_MAX_TOKENS,
   options.temperature,
   options.systemPrompt⟩

/-! ## ConversationManager (`src/core/conversation-manager.js`) -/

/-- Message roles (the source uses the strings `'user'`/`'assistant'`). -/
inductive Role where
  | user
  | assistant
deriving DecidableEq, Repr

/-- A history `Message` (`timestamp` is `Date.now()` at creation). -/
structure Message where
  role : Role
  content : String
  timestamp : Nat
deriving DecidableEq, Repr

/-- The state of a `ConversationManager` (the `Anthropic` client handle and the
data-directory plumbing carry no conversation state and are omitted). -/
structure ConversationManager where
  conversationHistory : List Message
  systemPrompt : JsStr
  model : String
  maxTokens : Nat
  temperature : ℚ
  sessionId : String
deriving DecidableEq, Repr

/-- `addMessage(role, content)`: append a freshly stamped message. -/
def ConversationManager.addMessage (cm : ConversationManager) (role : Role)
    (content : String) (now : Nat) : ConversationManager :=
  { cm with conversationHistory := cm.conversationHistory ++ [⟨role, content, now⟩] }

/-- `setSystemPrompt(prompt)`. -/
def ConversationManager.setSystemPrompt (cm : ConversationManager) (prompt : String) :
    ConversationManager :=
  { cm with systemPrompt := .str prompt }

/-- `clearHistory()`. -/
def ConversationManager.clearHistory (cm : ConversationManager) : ConversationManager :=
  { cm with conversationHistory := [] }

/-- The `usage` object of a successful chat result. -/
structure Usage where
  inputTokens : Nat
  outputTokens : Nat
  totalTokens : Nat
deriving DecidableEq, Repr

/-- The result object of `chat`/`sendMessage`.  JS result objects omit fields
that do not apply; an omitted field is modelled by `none`/`false`. -/
structure ChatResponse where
  success : Bool
  content : Option String := none
  error : Option String := none
  usage : Option Usage := none
  model : Option String := none
  stopReason : Option String := none
  fromCache : Bool := false
deriving DecidableEq, Repr

/-- Oracle for one remote call: either a well-formed successful response
(`text`, token usage, reported model, stop reason) or an upstream error. -/
inductive ApiOutcome where
  | ok (text : String) (inputTokens outputTokens : Nat) (model : String)
       (stopReason : Option String)
  | err (message : String)
deriving DecidableEq, Repr

/-- `chat(userInput, options)` with the remote call abstracted by `api`:
append the user message; on success append the assistant message and return
the success result; on failure `pop()` the just-appended user message and
return the failure result.  (`options` only shapes the outbound request
object, which the oracle abstracts, so it does not appear here.  The source
defines `chat` twice with identical bodies; the second definition shadows the
first, and this is its translation.) -/
def ConversationManager.chat (cm : ConversationManager) (userInput : String)
    (api : ApiOutcome) (now : Nat) : ChatResponse × ConversationManager :=
  let cm1 := cm.addMessage .user userInput now
  match api with
  | .ok text itk otk mdl stop =>
      let cm2 := cm1.addMessage .assistant text now
      ({ success := true, content := some text,
         usage := some ⟨itk, otk, itk + otk⟩, model := some mdl,
         stopReason := stop }, cm2)
  | .err msg =>
      ({ success := false, error := some msg, content := none },
       { cm1 with conversationHistory := cm1.conversationHistory.dropLast })

/-! ## CleverAssistant (`src/services/clever-assistant.js`) -/

/-- The assistant state: conversation, tracker and cache.  The cache is keyed
by the canonical `KeyData` (see `CacheManager.generateKey`). -/
structure CleverAssistant where
  conversation : ConversationManager
  tokenTracker : TokenTracker
  cache : CacheManager KeyData String
  currentMode : String
deriving DecidableEq, Repr

/-- The cache key `sendMessage` derives (its lines 97–101): `generateKey` is
called with `model`, `temperature` and `systemPrompt` taken from the
conversation — and with no `maxTokens` field at all. -/
def CleverAssistant.derivedCacheKey (a : CleverAssistant) (userInput : String) : KeyData :=
  CacheManager.generateKey userInput
    { model := some a.conversation.model,
      temperature := some a.conversation.temperature,
      systemPrompt := a.conversation.systemPrompt }

/-- `sendMessage(userInput, options)`, returning the result, the new assistant
state, and whether the remote model was invoked.  Control flow of the source:
1. `checkBudget()`; if `isOverBudget`, fail immediately (nothing touched).
2. derive the cache key and call `cache.get` (this always runs its stats and
   recency updates).
3. if the cached value is truthy and `options.disableCache` is not set,
   append both turns to the conversation and return the cached content.
4. otherwise `conversation.chat(...)`; on success `recordCall(...)` on the
   tracker and `cache.set(key, content)`. -/
def CleverAssistant.sendMessage (a : CleverAssistant) (userInput : String)
    (disableCache : Bool) (api : ApiOutcome) (now : Nat) :
    ChatResponse × CleverAssistant × Bool :=
  let budgetStatus := (a.tokenTracker.checkBudget).1
  if budgetStatus.isOverBudget then
    ({ success := false, error := some "已超出预算限制", content := none },
     a, false)
  else
    let cacheKey := a.derivedCacheKey userInput
    let got := a.cache.get now cacheKey
    let a1 := { a with cache := got.2 }
    if jsTruthyOptStr got.1 && !disableCache then
      let conv1 := (a1.conversation.addMessage .user userInput now).addMessage
        .assistant (got.1.getD "") now
      ({ success := true, content := got.1, fromCache := true, usage := none },
       { a1 with conversation := conv1 }, false)
    else
      let chatted := a1.conversation.chat userInput api now
      let response := chatted.1
      let a2 := { a1 with conversation := chatted.2 }
      if response.success then
        let usage := (response.usage).getD ⟨0, 0, 0⟩
        let tracked := a2.tokenTracker.recordCall usage.inputTokens
          usage.outputTokens ((response.model).getD Config.DEFAULT_MODEL) none now
        let setRes := a2.cache.set now cacheKey ((response.content).getD "") none
        (response, { a2 with tokenTracker := tracked.2, cache := setRes.2 }, true)
      else
        (response, a2, true)

/-! ## Operation sequences over a cache, with a ghost access clock

To state the LRU invariant ("`accessOrder` is ordered from least- to
most-recently accessed") the run of a cache is instrumented with a ghost
clock: every operation ticks it, and the single key whose recency an
operation refreshes (a fresh `get` hit, or the key written by a successful
`set`) is stamped with the current tick in `lastTouch`. -/

/-- One public mutating operation of `CacheManager`. -/
inductive CacheOp (κ α : Type) where
  | get (now : Nat) (k : κ)
  | set (now : Nat) (k : κ) (v : α) (ttl : Option Nat)
  | del (k : κ)
  | clear
  | cleanup (now : Nat)

/-- Apply one operation, discarding the returned value. -/
def CacheManager.applyOp [DecidableEq κ] (c : CacheManager κ α) :
    CacheOp κ α → CacheManager κ α
  | .get now k => (c.get now k).2
  | .set now k v ttl => (c.set now k v ttl).2
  | .del k => (c.delete k).2
  | .clear => c.clear
  | .cleanup now => (c.cleanup now).2

/-- The key (if any) whose recency the operation refreshes: the key of a
fresh `get` hit, or the key of a successful `set`. -/
def CacheManager.touchedKey [DecidableEq κ] (c : CacheManager κ α) :
    CacheOp κ α → Option κ
  | .get now k =>
      if c.enabled = false then none
      else
        match mapLookup c.cache k with
        | none => none
        | some item => if item.isExpired now then none else some k
  | .set _ k _ _ => if c.enabled = false then none else some k
  | _ => none

/-- A cache together with its ghost access clock. -/
structure TrackedCache (κ α : Type) where
  mgr : CacheManager κ α
  lastTouch : κ → Nat
  clock : Nat

/-- One instrumented step: run the operation, stamp the touched key. -/
def TrackedCache.step [DecidableEq κ] (t : TrackedCache κ α) (op : CacheOp κ α) :
    TrackedCache κ α :=
  { mgr := t.mgr.applyOp op,
    lastTouch :=
      match t.mgr.touchedKey op with
      | some k => fun k' => if k' = k then t.clock else t.lastTouch k'
      | none => t.lastTouch,
    clock := t.clock + 1 }

/-- Run a list of operations. -/
def TrackedCache.run [DecidableEq κ] (t : TrackedCache κ α) (ops : List (CacheOp κ α)) :
    TrackedCache κ α :=
  ops.foldl TrackedCache.step t

/-- Well-formedness of a cache with respect to a stamp function `f` and a
clock bound `n`: the capacity bound holds, map keys are unique, `accessOrder`
lists exactly the stored keys, each exactly once, in strictly increasing order
of last access stamp, and all stamps are in the past. -/
def CacheWF [DecidableEq κ] (c : CacheManager κ α) (f : κ → Nat) (n : Nat) : Prop :=
  c.cache.length ≤ c.maxSize ∧
  (c.cache.map Prod.fst).Nodup ∧
  c.accessOrder.Nodup ∧
  (∀ k, k ∈ c.accessOrder ↔ k ∈ c.cache.map Prod.fst) ∧
  c.accessOrder.Pairwise (fun k1 k2 => f k1 < f k2) ∧
  (∀ k ∈ c.accessOrder, f k < n)

/-- The instrumented invariant of claim C3. -/
def CacheInv [DecidableEq κ] (t : TrackedCache κ α) : Prop :=
  CacheWF t.mgr t.lastTouch t.clock

/-! ### Association-list lemmas -/

theorem mapLookup_eq_none [DecidableEq κ] (l : List (κ × β)) (k : κ) :
    mapLookup l k = none ↔ k ∉ l.map Prod.fst := by
  induction l with
  | nil => simp [mapLookup]
  | cons p rest ih =>
      obtain ⟨k', v⟩ := p
      by_cases h : k' = k
      · subst h
        simp [mapLookup]
      · simp only [mapLookup, if_neg h, List.map_cons, List.mem_cons, not_or, ih]
        constructor
        · exact fun hn => ⟨fun he => h he.symm, hn⟩
        · exact fun hn => hn.2

theorem mapHas_iff [DecidableEq κ] (l : List (κ × β)) (k : κ) :
    mapHas l k = true ↔ k ∈ l.map Prod.fst := by
  rw [mapHas, Option.isSome_iff_ne_none, ne_eq, mapLookup_eq_none, not_not]

theorem mapHas_eq_false_iff [DecidableEq κ] (l : List (κ × β)) (k : κ) :
    mapHas l k = false ↔ k ∉ l.map Prod.fst := by
  rw [← Bool.not_eq_true, not_iff_not, mapHas_iff]

theorem keys_mapInsert_of_mem [DecidableEq κ] (l : List (κ × β)) (k : κ) (v : β)
    (h : k ∈ l.map Prod.fst) :
    (mapInsert l k v).map Prod.fst = l.map Prod.fst := by
  induction l with
  | nil => simp at h
  | cons p rest ih =>
      obtain ⟨k', v'⟩ := p
      by_cases hk : k' = k
      · simp [mapInsert, hk]
      · simp only [List.map_cons, List.mem_cons] at h
        rcases h with h | h
        · exact absurd h.symm hk
        · simp [mapInsert, hk, ih h]

theorem keys_mapInsert_of_not_mem [DecidableEq κ] (l : List (κ × β)) (k : κ) (v : β)
    (h : k ∉ l.map Prod.fst) :
    (mapInsert l k v).map Prod.fst = l.map Prod.fst ++ [k] := by
  induction l with
  | nil => simp [mapInsert]
  | cons p rest ih =>
      obtain ⟨k', v'⟩ := p
      simp only [List.map_cons, List.mem_cons, not_or] at h
      simp [mapInsert, Ne.symm h.1, ih h.2]

theorem length_mapInsert_of_mem [DecidableEq κ] (l : List (κ × β)) (k : κ) (v : β)
    (h : k ∈ l.map Prod.fst) :
    (mapInsert l k v).length = l.length := by
  have := congrArg List.length (keys_mapInsert_of_mem l k v h)
  simpa using this

theorem length_mapInsert_of_not_mem [DecidableEq κ] (l : List (κ × β)) (k : κ) (v : β)
    (h : k ∉ l.map Prod.fst) :
    (mapInsert l k v).length = l.length + 1 := by
  have := congrArg List.length (keys_mapInsert_of_not_mem l k v h)
  simpa using this

theorem keys_mapRemove [DecidableEq κ] (l : List (κ × β)) (k : κ) :
    (mapRemove l k).map Prod.fst = (l.map Prod.fst).filter (fun k' => k' ≠ k) := by
  simp only [mapRemove, ne_eq, decide_not]
  induction l with
  | nil => rfl
  | cons p rest ih =>
      obtain ⟨k', v'⟩ := p
      by_cases h : k' = k <;> simp [List.filter_cons, h, ih]

theorem mapRemove_sublist [DecidableEq κ] (l : List (κ × β)) (k : κ) :
    List.Sublist (mapRemove l k) l :=
  List.filter_sublist l

theorem mapLookup_mapInsert_self [DecidableEq κ] (l : List (κ × β)) (k : κ) (v : β) :
    mapLookup (mapInsert l k v) k = some v := by
  induction l with
  | nil => simp [mapInsert, mapLookup]
  | cons p rest ih =>
      obtain ⟨k', v'⟩ := p
      by_cases h : k' = k <;> simp [mapInsert, mapLookup, h, ih]

theorem mem_mapInsert_self [DecidableEq κ] (l : List (κ × β)) (k : κ) (v : β) :
    (k, v) ∈ mapInsert l k v := by
  induction l with
  | nil => simp [mapInsert]
  | cons p rest ih =>
      obtain ⟨k', v'⟩ := p
      by_cases h : k' = k <;> simp [mapInsert, h, ih]

theorem mapLookup_eq_some_of_mem_of_nodup [DecidableEq κ] (l : List (κ × β))
    (k : κ) (v : β) (hmem : (k, v) ∈ l) (hnd : (l.map Prod.fst).Nodup) :
    mapLookup l k = some v := by
  induction l with
  | nil => simp at hmem
  | cons p rest ih =>
      obtain ⟨k', v'⟩ := p
      simp only [List.map_cons, List.nodup_cons] at hnd
      rcases List.mem_cons.mp hmem with h | h
      · injection h with h1 h2
        subst h1; subst h2
        simp [mapLookup]
      · have hk : k' ≠ k := by
          rintro rfl
          exact hnd.1 (by simpa using List.mem_map_of_mem Prod.fst h)
        simp [mapLookup, hk, ih h hnd.2]

/-! ### Shape lemmas for the cache operations -/

theorem get_disabled [DecidableEq κ] (c : CacheManager κ α) (now : Nat) (k : κ)
    (h : c.enabled = false) : c.get now k = (none, c) := by
  simp [CacheManager.get, h]

theorem get_miss [DecidableEq κ] (c : CacheManager κ α) (now : Nat) (k : κ)
    (hen : c.enabled = true) (hl : mapLookup c.cache k = none) :
    c.get now k =
      (none, { c with stats := { c.stats with misses := c.stats.misses + 1 } }) := by
  simp [CacheManager.get, hen, hl]

theorem get_expired [DecidableEq κ] (c : CacheManager κ α) (now : Nat) (k : κ)
    (item : CacheItem α) (hen : c.enabled = true)
    (hl : mapLookup c.cache k = some item) (he : item.isExpired now = true) :
    c.get now k =
      (none, { (c.delete k).2 with stats :=
        { (c.delete k).2.stats with misses := (c.delete k).2.stats.misses + 1 } }) := by
  simp [CacheManager.get, hen, hl, he]

theorem get_hit [DecidableEq κ] (c : CacheManager κ α) (now : Nat) (k : κ)
    (item : CacheItem α) (hen : c.enabled = true)
    (hl : mapLookup c.cache k = some item) (he : item.isExpired now = false) :
    c.get now k =
      (some item.value,
       { c with cache := mapInsert c.cache k { item with hits := item.hits + 1 },
                accessOrder := c.accessOrder.erase k ++ [k],
                stats := { c.stats with hits := c.stats.hits + 1 } }) := by
  simp [CacheManager.get, CacheManager.updateAccessOrder, hen, hl, he]

theorem set_disabled [DecidableEq κ] (c : CacheManager κ α) (now : Nat) (k : κ)
    (v : α) (ttl : Option Nat) (h : c.enabled = false) :
    c.set now k v ttl = (false, c) := by
  simp [CacheManager.set, h]

theorem set_enabled [DecidableEq κ] (c : CacheManager κ α) (now : Nat) (k : κ)
    (v : α) (ttl : Option Nat) (hen : c.enabled = true) :
    c.set now k v ttl =
      (true,
       let c1 := if c.maxSize ≤ c.cache.length ∧ mapHas c.cache k = false
                 then c.evictLRU else c
       { c1 with cache := mapInsert c1.cache k ⟨v, now, jsOrNat ttl c.defaultTTL, 0⟩,
                 accessOrder := c1.accessOrder.erase k ++ [k],
                 stats := { c1.stats with sets := c1.stats.sets + 1 } }) := by
  simp [CacheManager.set, CacheManager.updateAccessOrder, hen]

/-! ### `maxSize` is never written by any operation -/

theorem maxSize_delete [DecidableEq κ] (c : CacheManager κ α) (k : κ) :
    (c.delete k).2.maxSize = c.maxSize := by
  unfold CacheManager.delete
  split <;> rfl

theorem maxSize_get [DecidableEq κ] (c : CacheManager κ α) (now : Nat) (k : κ) :
    (c.get now k).2.maxSize = c.maxSize := by
  cases hen : c.enabled
  · rw [get_disabled c now k hen]
  · cases hl : mapLookup c.cache k with
    | none => rw [get_miss c now k hen hl]
    | some item =>
        cases he : item.isExpired now
        · rw [get_hit c now k item hen hl he]
        · rw [get_expired c now k item hen hl he]
          exact maxSize_delete c k

theorem maxSize_evictLRU [DecidableEq κ] (c : CacheManager κ α) :
    c.evictLRU.maxSize = c.maxSize := by
  unfold CacheManager.evictLRU
  split <;> rfl

theorem maxSize_set [DecidableEq κ] (c : CacheManager κ α) (now : Nat) (k : κ)
    (v : α) (ttl : Option Nat) : (c.set now k v ttl).2.maxSize = c.maxSize := by
  cases hen : c.enabled
  · rw [set_disabled c now k v ttl hen]
  · rw [set_enabled c now k v ttl hen]
    by_cases hcond : c.maxSize ≤ c.cache.length ∧ mapHas c.cache k = false
    · simp [hcond, maxSize_evictLRU]
    · simp [hcond]

theorem maxSize_cleanup [DecidableEq κ] (c : CacheManager κ α) (now : Nat) :
    (c.cleanup now).2.maxSize = c.maxSize := by
  unfold CacheManager.cleanup
  suffices h : ∀ (l : List (κ × CacheItem α)) (acc : Nat × CacheManager κ α),
      (l.foldl (fun acc p =>
        if (now : ℤ) - (p.2.createdAt : ℤ) > (p.2.ttl : ℤ)
        then (acc.1 + 1, (acc.2.delete p.1).2) else acc) acc).2.maxSize =
      acc.2.maxSize by
    exact h c.cache (0, c)
  intro l
  induction l with
  | nil => intro acc; rfl
  | cons p rest ih =>
      intro acc
      simp only [List.foldl_cons]
      by_cases hc : (now : ℤ) - (p.2.createdAt : ℤ) > (p.2.ttl : ℤ)
      · rw [if_pos hc, ih]
        exact maxSize_delete acc.2 p.1
      · rw [if_neg hc, ih]

theorem maxSize_applyOp [DecidableEq κ] (c : CacheManager κ α) (op : CacheOp κ α) :
    (c.applyOp op).maxSize = c.maxSize := by
  cases op with
  | get now k => exact maxSize_get c now k
  | set now k v ttl => exact maxSize_set c now k v ttl
  | del k => exact maxSize_delete c k
  | clear => rfl
  | cleanup now => exact maxSize_cleanup c now

/-! ### Preservation of `CacheWF` -/

theorem cacheWF_clock_le [DecidableEq κ] {c : CacheManager κ α} {f : κ → Nat}
    {n m : Nat} (h : CacheWF c f n) (hnm : n ≤ m) : CacheWF c f m := by
  obtain ⟨h1, h2, h3, h4, h5, h6⟩ := h
  exact ⟨h1, h2, h3, h4, h5, fun k hk => lt_of_lt_of_le (h6 k hk) hnm⟩

theorem cacheWF_stats [DecidableEq κ] {c : CacheManager κ α} {f : κ → Nat} {n : Nat}
    (s : CacheStats) (h : CacheWF c f n) : CacheWF { c with stats := s } f n := h

theorem cacheWF_delete [DecidableEq κ] {c : CacheManager κ α} {f : κ → Nat} {n : Nat}
    (k : κ) (h : CacheWF c f n) : CacheWF (c.delete k).2 f n := by
  obtain ⟨h1, h2, h3, h4, h5, h6⟩ := h
  unfold CacheManager.delete
  cases hk : mapHas c.cache k
  · simpa using ⟨h1, h2, h3, h4, h5, h6⟩
  · simp only [hk, if_pos]
    refine ⟨?_, ?_, ?_, ?_, ?_, ?_⟩
    · exact le_trans (List.Sublist.length_le (mapRemove_sublist c.cache k)) h1
    · rw [keys_mapRemove]
      exact h2.filter _
    · exact h3.filter _
    · intro k'
      rw [keys_mapRemove]
      simp only [List.mem_filter, decide_eq_true_eq, h4 k']
    · exact List.Pairwise.sublist (List.filter_sublist _) h5
    · intro k' hk'
      exact h6 k' (List.mem_of_mem_filter hk')

theorem cacheWF_clear [DecidableEq κ] {c : CacheManager κ α} {f : κ → Nat} {n : Nat}
    (h : CacheWF c f n) : CacheWF c.clear f n := by
  obtain ⟨h1, -, -, -, -, -⟩ := h
  exact ⟨Nat.zero_le _, List.nodup_nil, List.nodup_nil,
    fun k => by simp [CacheManager.clear], List.Pairwise.nil, fun k hk => by simp [CacheManager.clear] at hk⟩

theorem cacheWF_cleanup [DecidableEq κ] {c : CacheManager κ α} {f : κ → Nat} {n now : Nat}
    (h : CacheWF c f n) : CacheWF (c.cleanup now).2 f n := by
  unfold CacheManager.cleanup
  suffices hgen : ∀ (l : List (κ × CacheItem α)) (acc : Nat × CacheManager κ α),
      CacheWF acc.2 f n →
      CacheWF (l.foldl (fun acc p =>
        if (now : ℤ) - (p.2.createdAt : ℤ) > (p.2.ttl : ℤ)
        then (acc.1 + 1, (acc.2.delete p.1).2) else acc) acc).2 f n by
    exact hgen c.cache (0, c) h
  intro l
  induction l with
  | nil => exact fun acc hacc => hacc
  | cons p rest ih =>
      intro acc hacc
      simp only [List.foldl_cons]
      by_cases hc : (now : ℤ) - (p.2.createdAt : ℤ) > (p.2.ttl : ℤ)
      · rw [if_pos hc]
        exact ih _ (cacheWF_delete p.1 hacc)
      · rw [if_neg hc]
        exact ih _ hacc

theorem mapRemove_eq_self_of_not_mem [DecidableEq κ] (l : List (κ × β)) (k : κ)
    (h : k ∉ l.map Prod.fst) : mapRemove l k = l := by
  induction l with
  | nil => rfl
  | cons p rest ih =>
      simp only [List.map_cons, List.mem_cons, not_or] at h
      simp only [mapRemove, List.filter_cons] at *
      rw [if_pos (by simpa using Ne.symm h.1), ih h.2]

theorem length_mapRemove_of_mem [DecidableEq κ] (l : List (κ × β)) (k : κ)
    (hnd : (l.map Prod.fst).Nodup) (hmem : k ∈ l.map Prod.fst) :
    (mapRemove l k).length + 1 = l.length := by
  induction l with
  | nil => simp at hmem
  | cons p rest ih =>
      obtain ⟨k', v'⟩ := p
      simp only [List.map_cons, List.nodup_cons] at hnd
      by_cases h : k' = k
      · subst h
        rw [show mapRemove ((k', v') :: rest) k' = mapRemove rest k' from by
              simp [mapRemove, List.filter_cons]]
        rw [mapRemove_eq_self_of_not_mem rest k' hnd.1]
        simp
      · have hk : k ∈ rest.map Prod.fst := by
          rcases List.mem_cons.mp hmem with hh | hh
          · exact absurd hh.symm h
          · exact hh
        rw [show mapRemove ((k', v') :: rest) k = (k', v') :: mapRemove rest k from by
              simp [mapRemove, List.filter_cons, h]]
        simp only [List.length_cons]
        rw [← ih hnd.2 hk]

/-- Moving `k` to the back of a strictly stamp-sorted duplicate-free list and
stamping it with the present clock keeps the list duplicate-free, strictly
stamp-sorted and bounded by the next clock value. -/
theorem cacheWF_touch_order [DecidableEq κ] (order : List κ) (f : κ → Nat) (n : Nat)
    (k : κ) (hnd : order.Nodup)
    (hp : order.Pairwise fun a b => f a < f b)
    (hb : ∀ a ∈ order, f a < n) :
    (order.erase k ++ [k]).Nodup ∧
    (order.erase k ++ [k]).Pairwise
      (fun a b => (if a = k then n else f a) < (if b = k then n else f b)) ∧
    (∀ a ∈ order.erase k ++ [k], (if a = k then n else f a) < n + 1) ∧
    (∀ a, a ∈ order.erase k ++ [k] ↔ a ∈ order ∨ a = k) := by
  have hmem_erase : ∀ a, a ∈ order.erase k ↔ a ≠ k ∧ a ∈ order :=
    fun a => hnd.mem_erase_iff
  refine ⟨?_, ?_, ?_, ?_⟩
  · rw [List.nodup_append]
    refine ⟨hnd.erase k, List.nodup_singleton k, ?_⟩
    intro a ha hmem
    rw [List.mem_singleton] at hmem
    subst hmem
    exact ((hmem_erase a).mp ha).1 rfl
  · rw [List.pairwise_append]
    refine ⟨?_, List.pairwise_singleton _ _, ?_⟩
    · have hsub : List.Pairwise (fun a b => f a < f b) (order.erase k) :=
        List.Pairwise.sublist (List.erase_sublist k order) hp
      refine List.Pairwise.imp_of_mem ?_ hsub
      intro a b ha hb' hab
      rw [if_neg ((hmem_erase a).mp ha).1, if_neg ((hmem_erase b).mp hb').1]
      exact hab
    · intro a ha b hb'
      rw [List.mem_singleton] at hb'
      subst hb'
      rw [if_neg ((hmem_erase a).mp ha).1, if_pos rfl]
      exact hb a ((hmem_erase a).mp ha).2
  · intro a ha
    rcases List.mem_append.mp ha with ha | ha
    · rw [if_neg ((hmem_erase a).mp ha).1]
      exact Nat.lt_succ_of_lt (hb a ((hmem_erase a).mp ha).2)
    · rw [List.mem_singleton] at ha
      subst ha
      rw [if_pos rfl]
      exact Nat.lt_succ_self n
  · intro a
    rw [List.mem_append, List.mem_singleton, hmem_erase a]
    by_cases hak : a = k
    · subst hak; simp
    · simp [hak]

/-- One instrumented step preserves the invariant.  The capacity hypothesis
`1 ≤ maxSize` is what the constructor guarantees (`options.maxSize ||
Config.CACHE_MAX_SIZE` never yields `0` unless the environment forces it). -/
theorem cacheInv_step [DecidableEq κ] {t : TrackedCache κ α} (op : CacheOp κ α)
    (hmax : 1 ≤ t.mgr.maxSize) (h : CacheInv t) : CacheInv (t.step op) := by
  obtain ⟨mgr, f, clock⟩ := t
  replace h : CacheWF mgr f clock := h
  replace hmax : 1 ≤ mgr.maxSize := hmax
  cases op with
  | del k =>
      exact cacheWF_clock_le (cacheWF_delete k h) (Nat.le_succ _)
  | clear =>
      exact cacheWF_clock_le (cacheWF_clear h) (Nat.le_succ _)
  | cleanup now =>
      exact cacheWF_clock_le (cacheWF_cleanup h) (Nat.le_succ _)
  | get now k =>
      simp only [CacheInv, TrackedCache.step, CacheManager.applyOp]
      cases hen : mgr.enabled with
      | false =>
          rw [get_disabled mgr now k hen]
          rw [show mgr.touchedKey (.get now k) = none from by
                simp [CacheManager.touchedKey, hen]]
          exact cacheWF_clock_le h (Nat.le_succ _)
      | true =>
          cases hl : mapLookup mgr.cache k with
          | none =>
              rw [get_miss mgr now k hen hl]
              rw [show mgr.touchedKey (.get now k) = none from by
                    simp [CacheManager.touchedKey, hen, hl]]
              exact cacheWF_clock_le (cacheWF_stats _ h) (Nat.le_succ _)
          | some item =>
              cases he : item.isExpired now with
              | true =>
                  rw [get_expired mgr now k item hen hl he]
                  rw [show mgr.touchedKey (.get now k) = none from by
                        simp [CacheManager.touchedKey, hen, hl, he]]
                  exact cacheWF_clock_le (cacheWF_stats _ (cacheWF_delete k h)) (Nat.le_succ _)
              | false =>
                  obtain ⟨h1, h2, h3, h4, h5, h6⟩ := h
                  have hkmem : k ∈ mgr.cache.map Prod.fst := by
                    refine (mapHas_iff _ _).mp ?_
                    rw [mapHas, hl]
                    rfl
                  obtain ⟨t1, t2, t3, t4⟩ :=
                    cacheWF_touch_order mgr.accessOrder f clock k h3 h5 h6
                  rw [get_hit mgr now k item hen hl he]
                  rw [show mgr.touchedKey (.get now k) = some k from by
                        simp [CacheManager.touchedKey, hen, hl, he]]
                  refine ⟨?_, ?_, t1, ?_, t2, t3⟩
                  · show (mapInsert mgr.cache k { item with hits := item.hits + 1 }).length ≤
                      mgr.maxSize
                    rw [length_mapInsert_of_mem _ _ _ hkmem]
                    exact h1
                  · show ((mapInsert mgr.cache k
                      { item with hits := item.hits + 1 }).map Prod.fst).Nodup
                    rw [keys_mapInsert_of_mem _ _ _ hkmem]
                    exact h2
                  · intro k'
                    show k' ∈ mgr.accessOrder.erase k ++ [k] ↔
                      k' ∈ (mapInsert mgr.cache k
                        { item with hits := item.hits + 1 }).map Prod.fst
                    rw [keys_mapInsert_of_mem _ _ _ hkmem, t4 k']
                    constructor
                    · rintro (hk' | rfl)
                      · exact (h4 k').mp hk'
                      · exact hkmem
                    · exact fun hk' => Or.inl ((h4 k').mpr hk')
  | set now k v ttl =>
      simp only [CacheInv, TrackedCache.step, CacheManager.applyOp]
      cases hen : mgr.enabled with
      | false =>
          rw [set_disabled mgr now k v ttl hen]
          rw [show mgr.touchedKey (.set now k v ttl) = none from by
                simp [CacheManager.touchedKey, hen]]
          exact cacheWF_clock_le h (Nat.le_succ _)
      | true =>
          obtain ⟨h1, h2, h3, h4, h5, h6⟩ := h
          rw [set_enabled mgr now k v ttl hen]
          rw [show mgr.touchedKey (.set now k v ttl) = some k from by
                simp [CacheManager.touchedKey, hen]]
          by_cases hcond : mgr.maxSize ≤ mgr.cache.length ∧ mapHas mgr.cache k = false
          · -- a new key at capacity: the LRU head is evicted first
            rw [if_pos hcond]
            have hknot : k ∉ mgr.cache.map Prod.fst :=
              (mapHas_eq_false_iff _ _).mp hcond.2
            have korder : k ∉ mgr.accessOrder := fun hin => hknot ((h4 k).mp hin)
            cases horder_eq : mgr.accessOrder with
            | nil =>
                exfalso
                have hlen : 1 ≤ mgr.cache.length := le_trans hmax hcond.1
                cases hc : mgr.cache with
                | nil => rw [hc] at hlen; simp at hlen
                | cons p ps =>
                    have hpk : p.1 ∈ mgr.cache.map Prod.fst := by
                      rw [hc]
                      exact List.mem_map_of_mem Prod.fst (List.mem_cons_self p ps)
                    have := (h4 p.1).mpr hpk
                    rw [horder_eq] at this
                    simp at this
            | cons lru rest =>
                have hev : mgr.evictLRU =
                    { mgr with accessOrder := rest,
                               cache := mapRemove mgr.cache lru,
                               stats := { mgr.stats with
                                 evictions := mgr.stats.evictions + 1 } } := by
                  unfold CacheManager.evictLRU
                  rw [horder_eq]
                rw [hev]
                have hlru_order : lru ∈ mgr.accessOrder := by
                  rw [horder_eq]; exact List.mem_cons_self lru rest
                have hlru_keys : lru ∈ mgr.cache.map Prod.fst := (h4 lru).mp hlru_order
                have hnd_cons := horder_eq ▸ h3
                have hlru_rest : lru ∉ rest := (List.nodup_cons.mp hnd_cons).1
                have hnd_rest : rest.Nodup := (List.nodup_cons.mp hnd_cons).2
                have hp_rest : rest.Pairwise (fun a b => f a < f b) :=
                  (List.pairwise_cons.mp (horder_eq ▸ h5)).2
                have hb_rest : ∀ a ∈ rest, f a < clock := by
                  intro a ha
                  refine h6 a ?_
                  rw [horder_eq]
                  exact List.mem_cons_of_mem lru ha
                have krest : k ∉ rest := by
                  intro hk
                  refine korder ?_
                  rw [horder_eq]
                  exact List.mem_cons_of_mem lru hk
                have hkeys_rm : ∀ a, a ∈ (mapRemove mgr.cache lru).map Prod.fst ↔
                    a ∈ mgr.cache.map Prod.fst ∧ a ≠ lru := by
                  intro a
                  rw [keys_mapRemove]
                  simp [List.mem_filter]
                have hknot_rm : k ∉ (mapRemove mgr.cache lru).map Prod.fst := by
                  intro hk
                  exact hknot ((hkeys_rm k).mp hk).1
                have hnd_rm : ((mapRemove mgr.cache lru).map Prod.fst).Nodup := by
                  rw [keys_mapRemove]
                  exact h2.filter _
                obtain ⟨t1, t2, t3, t4⟩ :=
                  cacheWF_touch_order rest f clock k
                    hnd_rest hp_rest hb_rest
                refine ⟨?_, ?_, t1, ?_, t2, t3⟩
                · show (mapInsert (mapRemove mgr.cache lru) k
                    ⟨v, now, jsOrNat ttl mgr.defaultTTL, 0⟩).length ≤ mgr.maxSize
                  rw [length_mapInsert_of_not_mem _ _ _ hknot_rm]
                  rw [length_mapRemove_of_mem _ _ h2 hlru_keys]
                  exact h1
                · show ((mapInsert (mapRemove mgr.cache lru) k
                    ⟨v, now, jsOrNat ttl mgr.defaultTTL, 0⟩).map Prod.fst).Nodup
                  rw [keys_mapInsert_of_not_mem _ _ _ hknot_rm]
                  rw [List.nodup_append]
                  refine ⟨hnd_rm, List.nodup_singleton k, ?_⟩
                  intro a ha hk
                  rw [List.mem_singleton] at hk
                  subst hk
                  exact hknot_rm ha
                · intro k'
                  show k' ∈ rest.erase k ++ [k] ↔
                    k' ∈ (mapInsert (mapRemove mgr.cache lru) k
                      ⟨v, now, jsOrNat ttl mgr.defaultTTL, 0⟩).map Prod.fst
                  rw [keys_mapInsert_of_not_mem _ _ _ hknot_rm, t4 k']
                  rw [List.mem_append, List.mem_singleton]
                  have hrest_iff : k' ∈ rest ↔
                      k' ∈ (mapRemove mgr.cache lru).map Prod.fst := by
                    rw [hkeys_rm k']
                    constructor
                    · intro hk'
                      refine ⟨(h4 k').mp ?_, ?_⟩
                      · rw [horder_eq]; exact List.mem_cons_of_mem lru hk'
                      · rintro rfl; exact hlru_rest hk'
                    · rintro ⟨hk', hne⟩
                      have := (h4 k').mpr hk'
                      rw [horder_eq] at this
                      rcases List.mem_cons.mp this with rfl | hh
                      · exact absurd rfl hne
                      · exact hh
                  rw [hrest_iff]
          · -- no eviction: existing key, or spare capacity
            rw [if_neg hcond]
            cases hk : mapHas mgr.cache k with
            | true =>
                have hkmem : k ∈ mgr.cache.map Prod.fst := (mapHas_iff _ _).mp hk
                obtain ⟨t1, t2, t3, t4⟩ :=
                  cacheWF_touch_order mgr.accessOrder f clock k h3 h5 h6
                refine ⟨?_, ?_, t1, ?_, t2, t3⟩
                · show (mapInsert mgr.cache k
                    ⟨v, now, jsOrNat ttl mgr.defaultTTL, 0⟩).length ≤ mgr.maxSize
                  rw [length_mapInsert_of_mem _ _ _ hkmem]
                  exact h1
                · show ((mapInsert mgr.cache k
                    ⟨v, now, jsOrNat ttl mgr.defaultTTL, 0⟩).map Prod.fst).Nodup
                  rw [keys_mapInsert_of_mem _ _ _ hkmem]
                  exact h2
                · intro k'
                  show k' ∈ mgr.accessOrder.erase k ++ [k] ↔
                    k' ∈ (mapInsert mgr.cache k
                      ⟨v, now, jsOrNat ttl mgr.defaultTTL, 0⟩).map Prod.fst
                  rw [keys_mapInsert_of_mem _ _ _ hkmem, t4 k']
                  constructor
                  · rintro (hk' | rfl)
                    · exact (h4 k').mp hk'
                    · exact hkmem
                  · exact fun hk' => Or.inl ((h4 k').mpr hk')
            | false =>
                have hknot : k ∉ mgr.cache.map Prod.fst := (mapHas_eq_false_iff _ _).mp hk
                have hlt : mgr.cache.length < mgr.maxSize := by
                  rcases Nat.lt_or_ge mgr.cache.length mgr.maxSize with hlt | hge
                  · exact hlt
                  · exact absurd ⟨hge, hk⟩ hcond
                obtain ⟨t1, t2, t3, t4⟩ :=
                  cacheWF_touch_order mgr.accessOrder f clock k h3 h5 h6
                refine ⟨?_, ?_, t1, ?_, t2, t3⟩
                · show (mapInsert mgr.cache k
                    ⟨v, now, jsOrNat ttl mgr.defaultTTL, 0⟩).length ≤ mgr.maxSize
                  rw [length_mapInsert_of_not_mem _ _ _ hknot]
                  exact hlt
                · show ((mapInsert mgr.cache k
                    ⟨v, now, jsOrNat ttl mgr.defaultTTL, 0⟩).map Prod.fst).Nodup
                  rw [keys_mapInsert_of_not_mem _ _ _ hknot]
                  rw [List.nodup_append]
                  refine ⟨h2, List.nodup_singleton k, ?_⟩
                  intro a ha hk'
                  rw [List.mem_singleton] at hk'
                  subst hk'
                  exact hknot ha
                · intro k'
                  show k' ∈ mgr.accessOrder.erase k ++ [k] ↔
                    k' ∈ (mapInsert mgr.cache k
                      ⟨v, now, jsOrNat ttl mgr.defaultTTL, 0⟩).map Prod.fst
                  rw [keys_mapInsert_of_not_mem _ _ _ hknot, t4 k']
                  rw [List.mem_append, List.mem_singleton]
                  constructor
                  · rintro (hk' | rfl)
                    · exact Or.inl ((h4 k').mp hk')
                    · exact Or.inr rfl
                  · rintro (hk' | rfl)
                    · exact Or.inl ((h4 k').mpr hk')
                    · exact Or.inr rfl

/-- The invariant holds after every initial segment of an operation run. -/
theorem cacheInv_run [DecidableEq κ] {t : TrackedCache κ α}
    (hmax : 1 ≤ t.mgr.maxSize) (h : CacheInv t) (ops : List (CacheOp κ α)) :
    ∀ n, CacheInv (t.run (ops.take n)) := by
  induction ops generalizing t with
  | nil =>
      intro n
      simpa [TrackedCache.run] using h
  | cons op rest ih =>
      intro n
      cases n with
      | zero => simpa [TrackedCache.run] using h
      | succ m =>
          have hmax' : 1 ≤ (t.step op).mgr.maxSize := by
            have heq : (t.step op).mgr.maxSize = t.mgr.maxSize := maxSize_applyOp t.mgr op
            rw [heq]
            exact hmax
          have hstep := cacheInv_step op hmax h
          simpa [TrackedCache.run, List.take_succ_cons, List.foldl_cons] using
            ih hmax' hstep m

/-- C3: for every sequence of `get`, `set`, `delete`, `clear` and `cleanup`
operations applied to an initially empty enabled `CacheManager`, after each
operation completes the number of stored entries is at most `maxSize`, and
`accessOrder` contains exactly the keys present in the entry map, each exactly
once, ordered from least- to most-recently accessed (strictly increasing ghost
access stamps). -/
theorem cache_invariant_all_prefixes [DecidableEq κ] (c0 : CacheManager κ α)
    (f0 : κ → Nat) (ops : List (CacheOp κ α))
    (_hen : c0.enabled = true) (hmax : 1 ≤ c0.maxSize)
    (hcache : c0.cache = []) (horder : c0.accessOrder = []) :
    ∀ n, CacheInv (TrackedCache.run ⟨c0, f0, 0⟩ (ops.take n)) := by
  have hinv : CacheInv (⟨c0, f0, 0⟩ : TrackedCache κ α) := by
    refine ⟨?_, ?_, ?_, ?_, ?_, ?_⟩
    · show c0.cache.length ≤ c0.maxSize
      rw [hcache]
      exact Nat.zero_le _
    · show (c0.cache.map Prod.fst).Nodup
      rw [hcache]
      exact List.nodup_nil
    · show c0.accessOrder.Nodup
      rw [horder]
      exact List.nodup_nil
    · intro k
      show k ∈ c0.accessOrder ↔ k ∈ c0.cache.map Prod.fst
      rw [hcache, horder]
      simp
    · show c0.accessOrder.Pairwise _
      rw [horder]
      exact List.Pairwise.nil
    · intro k hk
      have : k ∈ c0.accessOrder := hk
      rw [horder] at this
      simp at this
  exact cacheInv_run hmax hinv ops

/-- A concrete mixed workload over keys `Fin 3` used to witness C3. -/
def sampleOps : List (CacheOp (Fin 3) Nat) :=
  [.set 0 0 10 none, .set 1 1 11 none, .get 2 0, .set 3 2 12 none,
   .del 1, .cleanup 4, .get 5 1, .get 6 2, .clear, .set 7 1 13 (some 5), .get 13 1]

theorem cache_invariant_all_prefixes_witness :
    ((CacheManager.mk0 (Fin 3) Nat true 2 false).enabled = true ∧
     1 ≤ (CacheManager.mk0 (Fin 3) Nat true 2 false).maxSize ∧
     (CacheManager.mk0 (Fin 3) Nat true 2 false).cache = [] ∧
     (CacheManager.mk0 (Fin 3) Nat true 2 false).accessOrder = []) ∧
    ∀ n, CacheInv (TrackedCache.run
      ⟨CacheManager.mk0 (Fin 3) Nat true 2 false, fun _ => 0, 0⟩ (sampleOps.take n)) :=
  ⟨⟨rfl, by decide, rfl, rfl⟩,
   cache_invariant_all_prefixes (CacheManager.mk0 (Fin 3) Nat true 2 false)
     (fun _ => 0) sampleOps rfl (by decide) rfl rfl⟩

/-- Scenario A of the spec: `maxCapacity = 2`;
`set(k1,"a"); set(k2,"b"); get(k1); set(k3,"c")`. -/
def scenarioA : CacheManager String String :=
  let c0 := CacheManager.mk0 String String true 2 false
  let c1 := (c0.set 0 "k1" "a" none).2
  let c2 := (c1.set 1 "k2" "b" none).2
  let c3 := (c2.get 2 "k1").2
  (c3.set 3 "k3" "c" none).2

/-- C4: on an empty enabled cache with `maxSize = 2`, the sequence
`set(k1,"a"); set(k2,"b"); get(k1); set(k3,"c")` evicts exactly `k2` (the
least-recently-accessed key, since the `get` touched `k1`), leaving exactly
the entries for `k1` and `k3`. -/
theorem scenarioA_evicts_k2 :
    scenarioA.cache.map Prod.fst = ["k1", "k3"] ∧
    (mapLookup scenarioA.cache "k1").map CacheItem.value = some "a" ∧
    (mapLookup scenarioA.cache "k3").map CacheItem.value = some "c" ∧
    mapLookup scenarioA.cache "k2" = none ∧
    scenarioA.stats.evictions = 1 ∧
    scenarioA.accessOrder = ["k1", "k3"] := by
  decide

/-- C5 (amended): on an enabled cache, a `get` performed at a time `now` with
`now − createdAt > ttl` (strictly — the code's `isExpired` comparison)
reports the value absent, removes the entry as a side effect of the read, and
increments the miss counter. -/
theorem get_after_ttl_expires_entry [DecidableEq κ] (c : CacheManager κ α)
    (now : Nat) (k : κ) (item : CacheItem α)
    (hen : c.enabled = true) (hl : mapLookup c.cache k = some item)
    (hexp : (now : ℤ) - (item.createdAt : ℤ) > (item.ttl : ℤ)) :
    (c.get now k).1 = none ∧
    mapLookup (c.get now k).2.cache k = none ∧
    (c.get now k).2.stats.misses = c.stats.misses + 1 := by
  have he : item.isExpired now = true := by
    simp [CacheItem.isExpired]
    exact hexp
  have hhas : mapHas c.cache k = true := by
    rw [mapHas, hl]
    rfl
  have hdel : (c.delete k).2 =
      { c with
        cache := mapRemove c.cache k,
        accessOrder := c.accessOrder.filter (fun k' => k' ≠ k),
        stats := { c.stats with deletes := c.stats.deletes + 1 } } := by
    simp [CacheManager.delete, hhas]
  rw [get_expired c now k item hen hl he, hdel]
  refine ⟨rfl, ?_, rfl⟩
  show mapLookup (mapRemove c.cache k) k = none
  rw [mapLookup_eq_none, keys_mapRemove]
  simp [List.mem_filter]

/-- A one-entry cache whose entry was created at time `0` with `ttl = 5`. -/
def boundaryCache : CacheManager String String :=
  { enabled := true, maxSize := 100, defaultTTL := 3600000,
    cache := [("k", ⟨"v", 0, 5, 0⟩)], accessOrder := ["k"],
    persistenceEnabled := false, stats := CacheStats.zero }

/-- C5 counterexample: reading at `now = 5`, where `now − createdAt = ttl`
(so `now − createdAt ≥ ttl` holds), is a HIT: the value is returned, the
entry stays, and the hit — not the miss — counter is incremented, because the
code expires only on the strict comparison `now − createdAt > ttl`. -/
theorem boundaryCache_get_at_ttl_is_hit :
    (boundaryCache.get 5 "k").1 = some "v" ∧
    (mapLookup (boundaryCache.get 5 "k").2.cache "k").isSome = true ∧
    (boundaryCache.get 5 "k").2.stats.misses = 0 ∧
    (boundaryCache.get 5 "k").2.stats.hits = 1 := by
  decide

/-- C10: `delete(key)` for an absent key returns `false` and leaves the whole
manager — entries, access order, every stats counter — unchanged; hence its
persisted snapshot is also exactly what it was. -/
theorem delete_absent_is_noop [DecidableEq κ] (c : CacheManager κ α) (k : κ)
    (h : mapLookup c.cache k = none) :
    c.delete k = (false, c) ∧ ∀ now, ((c.delete k).2).save now = c.save now := by
  have hhas : mapHas c.cache k = false := by
    rw [mapHas, h]
    rfl
  have hd : c.delete k = (false, c) := by
    simp [CacheManager.delete, hhas]
  exact ⟨hd, fun now => by rw [hd]⟩

theorem delete_absent_is_noop_witness :
    mapLookup boundaryCache.cache "absent" = none ∧
    (boundaryCache.delete "absent" = (false, boundaryCache) ∧
     ∀ now, ((boundaryCache.delete "absent").2).save now = boundaryCache.save now) :=
  ⟨by decide, delete_absent_is_noop boundaryCache "absent" (by decide)⟩

/-! ## The conversation-history invariant (C6) -/

/-- The history shape required by the spec: strictly alternating
user/assistant pairs, starting with a user message (forces even length). -/
def isUserAssistantAlternating : List Message → Bool
  | [] => true
  | _ :: [] => false
  | u :: a :: rest =>
      u.role == Role.user && a.role == Role.assistant &&
        isUserAssistantAlternating rest

theorem isUA_append_pair (u a : Message) (hu : u.role = Role.user)
    (ha : a.role = Role.assistant) :
    ∀ h : List Message, isUserAssistantAlternating h = true →
      isUserAssistantAlternating (h ++ [u, a]) = true
  | [], _ => by simp [isUserAssistantAlternating, hu, ha]
  | [_], hx => by simp [isUserAssistantAlternating] at hx
  | x :: y :: rest, hxy => by
      simp only [isUserAssistantAlternating, Bool.and_eq_true, beq_iff_eq] at hxy
      simp only [List.cons_append, isUserAssistantAlternating, Bool.and_eq_true,
        beq_iff_eq]
      exact ⟨⟨hxy.1.1, hxy.1.2⟩, isUA_append_pair u a hu ha rest hxy.2⟩

theorem isUA_length_even : ∀ h : List Message,
    isUserAssistantAlternating h = true → h.length % 2 = 0
  | [], _ => rfl
  | [_], hx => by simp [isUserAssistantAlternating] at hx
  | _ :: _ :: rest, hxy => by
      simp only [isUserAssistantAlternating, Bool.and_eq_true] at hxy
      have := isUA_length_even rest hxy.2
      simp only [List.length_cons]
      omega

theorem chat_success_history (cm : ConversationManager) (userInput text : String)
    (itk otk : Nat) (mdl : String) (stop : Option String) (now : Nat) :
    ((cm.chat userInput (.ok text itk otk mdl stop) now).2).conversationHistory =
      cm.conversationHistory ++
        [⟨.user, userInput, now⟩, ⟨.assistant, text, now⟩] := by
  simp [ConversationManager.chat, ConversationManager.addMessage]

theorem chat_failure_history (cm : ConversationManager) (userInput msg : String)
    (now : Nat) :
    ((cm.chat userInput (.err msg) now).2).conversationHistory =
      cm.conversationHistory := by
  simp [ConversationManager.chat, ConversationManager.addMessage]

/-- One `chat` exchange of a run: user text, remote-call outcome, time. -/
structure ChatStep where
  userInput : String
  api : ApiOutcome
  now : Nat
deriving DecidableEq, Repr

/-- Fold a sequence of chat exchanges over a conversation. -/
def runChats (cm : ConversationManager) (steps : List ChatStep) :
    ConversationManager :=
  steps.foldl (fun c s => (c.chat s.userInput s.api s.now).2) cm

theorem isUA_runChats : ∀ (steps : List ChatStep) (cm : ConversationManager),
    isUserAssistantAlternating cm.conversationHistory = true →
    isUserAssistantAlternating (runChats cm steps).conversationHistory = true
  | [], _, h => h
  | ⟨input, api, now⟩ :: rest, cm, h => by
      have hstep : isUserAssistantAlternating
          ((cm.chat input api now).2).conversationHistory = true := by
        cases api with
        | ok text itk otk mdl stop =>
            rw [chat_success_history]
            exact isUA_append_pair _ _ rfl rfl cm.conversationHistory h
        | err msg =>
            rw [chat_failure_history]
            exact h
      have hrec := isUA_runChats rest ((cm.chat input api now).2) hstep
      simpa [runChats, List.foldl_cons] using hrec

/-- C6: starting from an empty history, after any sequence of successful and
failed `chat` calls the history strictly alternates user/assistant starting
with a user message and has even length; and a `chat` whose remote call fails
leaves the history exactly as long as before the attempt. -/
theorem chat_history_invariant (cm : ConversationManager) (steps : List ChatStep)
    (hstart : cm.conversationHistory = []) :
    (isUserAssistantAlternating (runChats cm steps).conversationHistory = true ∧
     (runChats cm steps).conversationHistory.length % 2 = 0) ∧
    ∀ (cm' : ConversationManager) (input msg : String) (now : Nat),
      ((cm'.chat input (.err msg) now).2).conversationHistory =
        cm'.conversationHistory := by
  have h0 : isUserAssistantAlternating cm.conversationHistory = true := by
    rw [hstart]
    rfl
  have hua := isUA_runChats steps cm h0
  exact ⟨⟨hua, isUA_length_even _ hua⟩,
    fun cm' input msg now => chat_failure_history cm' input msg now⟩

/-- A concrete conversation used to witness C6. -/
def sampleConversation : ConversationManager :=
  { conversationHistory := [], systemPrompt := .null,
    model := "claude-3-5-sonnet-20241022", maxTokens := 1024,
    temperature := 7/10, sessionId := "s" }

/-- The run of Scenario C plus a successful exchange on either side. -/
def sampleChatSteps : List ChatStep :=
  [⟨"hello", .ok "hi there" 10 5 "claude-3-5-sonnet-20241022" (some "end_turn"), 1⟩,
   ⟨"hi", .err "upstream error", 2⟩,
   ⟨"again", .ok "sure" 12 7 "claude-3-5-sonnet-20241022" none, 3⟩]

theorem chat_history_invariant_witness :
    sampleConversation.conversationHistory = [] ∧
    ((isUserAssistantAlternating
        (runChats sampleConversation sampleChatSteps).conversationHistory = true ∧
      (runChats sampleConversation sampleChatSteps).conversationHistory.length % 2 = 0) ∧
     ∀ (cm' : ConversationManager) (input msg : String) (now : Nat),
       ((cm'.chat input (.err msg) now).2).conversationHistory =
         cm'.conversationHistory) :=
  ⟨rfl, chat_history_invariant sampleConversation sampleChatSteps rfl⟩

/-! ## Budget claims (C7, C8) -/

theorem foldl_cost_eq_sum : ∀ (l : List CallRecord) (init : ℚ),
    l.foldl (fun sum record => sum + record.cost) init =
      init + (l.map CallRecord.cost).sum
  | [], init => by simp
  | r :: rest, init => by
      simp only [List.foldl_cons, List.map_cons, List.sum_cons]
      rw [foldl_cost_eq_sum rest (init + r.cost)]
      ring

/-- C7: `checkBudget()` returns `currentCost` equal to the sum of the stored
`cost` fields of the recorded call records (and `recordCall` stores a record
whose cost is computed by `calculateSingleCallCost` at record time);
`isOverBudget ⇔ currentCost ≥ budgetLimit`; `isNearLimit ⇔ currentCost ≥
budgetLimit·warnThreshold`; and `checkBudget` leaves the tracker unchanged
however often it is repeated, always returning the same status. -/
theorem checkBudget_spec (t : TokenTracker) :
    ((t.checkBudget).1.currentCost = (t.callHistory.map CallRecord.cost).sum ∧
     ((t.checkBudget).1.isOverBudget = true ↔
        t.budgetLimit ≤ (t.checkBudget).1.currentCost) ∧
     ((t.checkBudget).1.isNearLimit = true ↔
        t.budgetLimit * t.warnThreshold ≤ (t.checkBudget).1.currentCost) ∧
     (t.checkBudget).2 = t ∧
     ((t.checkBudget).2.checkBudget).1 = (t.checkBudget).1) ∧
    ∀ (inputTokens outputTokens : Nat) (model : String)
      (requestId : Option String) (now : Nat),
      (t.recordCall inputTokens outputTokens model requestId now).2.callHistory =
        t.callHistory ++
          [(t.recordCall inputTokens outputTokens model requestId now).1] ∧
      (t.recordCall inputTokens outputTokens model requestId now).1.cost =
        TokenTracker.calculateSingleCallCost inputTokens outputTokens model := by
  refine ⟨⟨?_, ?_, ?_, rfl, rfl⟩, ?_⟩
  · show t.getTotalCost = _
    rw [TokenTracker.getTotalCost, foldl_cost_eq_sum]
    simp
  · show decide (t.getTotalCost ≥ t.budgetLimit) = true ↔
      t.budgetLimit ≤ t.getTotalCost
    simp [ge_iff_le]
  · show decide (t.getTotalCost ≥ t.budgetLimit * t.warnThreshold) = true ↔
      t.budgetLimit * t.warnThreshold ≤ t.getTotalCost
    simp [ge_iff_le]
  · intro i o m rid now
    exact ⟨rfl, rfl⟩

/-- C8: whenever the recorded cost meets or exceeds the budget limit,
`sendMessage` returns a failure with an error description, never invokes the
remote model, and leaves the assistant — conversation history, cache entries
and budget ledger — exactly unchanged. -/
theorem sendMessage_over_budget (a : CleverAssistant) (userInput : String)
    (disableCache : Bool) (api : ApiOutcome) (now : Nat)
    (hover : a.tokenTracker.budgetLimit ≤ a.tokenTracker.getTotalCost) :
    (a.sendMessage userInput disableCache api now).1.success = false ∧
    (a.sendMessage userInput disableCache api now).1.error.isSome = true ∧
    (a.sendMessage userInput disableCache api now).2.1 = a ∧
    (a.sendMessage userInput disableCache api now).2.2 = false := by
  have hb : ((a.tokenTracker.checkBudget).1).isOverBudget = true := by
    show decide (a.tokenTracker.getTotalCost ≥ a.tokenTracker.budgetLimit) = true
    simpa [ge_iff_le] using hover
  simp [CleverAssistant.sendMessage, hb]

/-- Scenario B's tracker: `budgetLimit = 0.50` and one recorded call costing
`0.60` (100000 input plus 20000 output tokens of the default model). -/
def scenarioBTracker : TokenTracker :=
  ((TokenTracker.init Config.BUDGET_LIMIT).recordCall 100000 20000
    "claude-3-5-sonnet-20241022" none 0).2

/-- An assistant sitting over budget (Scenario B). -/
def scenarioBAssistant : CleverAssistant :=
  { conversation := sampleConversation,
    tokenTracker := scenarioBTracker,
    cache := CacheManager.mk0 KeyData String true 100 false,
    currentMode := "learning" }

/-- Scenario B's ledger holds one call costing `0.60`, which exceeds the
`0.50` budget limit. -/
theorem scenarioB_is_over_budget :
    scenarioBAssistant.tokenTracker.budgetLimit ≤
      scenarioBAssistant.tokenTracker.getTotalCost := by
  norm_num [scenarioBAssistant, scenarioBTracker, TokenTracker.init,
    TokenTracker.recordCall, TokenTracker.checkBudget, TokenTracker.getTotalCost,
    TokenTracker.calculateSingleCallCost, Config.getModelPrice,
    Config.MODEL_PRICES, Config.BUDGET_LIMIT, Config.WARN_THRESHOLD]

theorem sendMessage_over_budget_witness :
    scenarioBAssistant.tokenTracker.budgetLimit ≤
      scenarioBAssistant.tokenTracker.getTotalCost ∧
    ((scenarioBAssistant.sendMessage "hi" false
        (.ok "t" 1 1 "m" none) 5).1.success = false ∧
     (scenarioBAssistant.sendMessage "hi" false
        (.ok "t" 1 1 "m" none) 5).1.error.isSome = true ∧
     (scenarioBAssistant.sendMessage "hi" false
        (.ok "t" 1 1 "m" none) 5).2.1 = scenarioBAssistant ∧
     (scenarioBAssistant.sendMessage "hi" false
        (.ok "t" 1 1 "m" none) 5).2.2 = false) :=
  ⟨scenarioB_is_over_budget,
   sendMessage_over_budget scenarioBAssistant "hi" false (.ok "t" 1 1 "m" none) 5
     scenarioB_is_over_budget⟩

/-! ## The request pipeline (C1, C2) -/

/-- C1 (amended): when the tracker is NOT over budget, a request whose derived
cache key has a fresh (enabled, non-expired) entry with truthy cached text and
caching not disabled returns success with the cached content,
`fromCache = true` and no usage figures, appends both turns to the history,
leaves the `TokenTracker` unchanged, and never invokes the remote model.  The
budget gate precedes the cache check: `checkBudget` is consulted (read-only)
on every request, and an over-budget request fails even on a cache hit. -/
theorem sendMessage_cache_hit (a : CleverAssistant) (userInput : String)
    (api : ApiOutcome) (now : Nat) (item : CacheItem String)
    (hnotover : ¬ a.tokenTracker.budgetLimit ≤ a.tokenTracker.getTotalCost)
    (hen : a.cache.enabled = true)
    (hl : mapLookup a.cache.cache (a.derivedCacheKey userInput) = some item)
    (hfresh : item.isExpired now = false)
    (hval : item.value ≠ "") :
    (a.sendMessage userInput false api now).1 =
      { success := true, content := some item.value, fromCache := true } ∧
    (a.sendMessage userInput false api now).1.usage = none ∧
    (a.sendMessage userInput false api now).2.1.conversation.conversationHistory =
      a.conversation.conversationHistory ++
        [⟨.user, userInput, now⟩, ⟨.assistant, item.value, now⟩] ∧
    (a.sendMessage userInput false api now).2.1.tokenTracker = a.tokenTracker ∧
    (a.sendMessage userInput false api now).2.2 = false := by
  have hb : ((a.tokenTracker.checkBudget).1).isOverBudget = false := by
    show decide (a.tokenTracker.getTotalCost ≥ a.tokenTracker.budgetLimit) = false
    simpa [ge_iff_le] using hnotover
  simp only [CleverAssistant.sendMessage, hb, Bool.false_eq_true, if_false]
  rw [get_hit a.cache now (a.derivedCacheKey userInput) item hen hl hfresh]
  simp [jsTruthyOptStr, hval, ConversationManager.addMessage]

/-- A conversation whose sampling temperature is the integer `1`; integer
field values keep the concrete key comparisons kernel-computable. -/
def conversationT1 : ConversationManager :=
  { conversationHistory := [], systemPrompt := .null,
    model := "claude-3-5-sonnet-20241022", maxTokens := 1024,
    temperature := 1, sessionId := "s" }

/-- The canonical key the pipeline derives for `"hi"` in `conversationT1`. -/
def keyT1 : KeyData :=
  ⟨"hi", "claude-3-5-sonnet-20241022", 1024, some 1, JsStr.null⟩

/-- An assistant whose recorded cost (0) already meets its budget limit (0)
and whose cache holds a fresh entry for the key derived from `"hi"`. -/
def assistantC1 : CleverAssistant :=
  { conversation := conversationT1,
    tokenTracker := TokenTracker.init 0,
    cache := { CacheManager.mk0 KeyData String true 100 false with
               cache := [(keyT1, ⟨"cached", 0, 3600000, 0⟩)],
               accessOrder := [keyT1] },
    currentMode := "learning" }

/-- C1 counterexample: the derived key has a fresh cached entry in an enabled
cache, and the recorded cost meets the budget limit; `sendMessage`
nevertheless returns a failure with no content and `fromCache` unset, because
the budget gate runs BEFORE the cache check (the claim asserts the opposite
order). -/
theorem sendMessage_cached_but_over_budget_fails :
    (mapLookup assistantC1.cache.cache (assistantC1.derivedCacheKey "hi")).isSome
      = true ∧
    (assistantC1.cache.get 5 (assistantC1.derivedCacheKey "hi")).1 = some "cached" ∧
    assistantC1.tokenTracker.budgetLimit ≤ assistantC1.tokenTracker.getTotalCost ∧
    (assistantC1.sendMessage "hi" false (.ok "fresh" 1 1 "m" none) 5).1.success
      = false ∧
    (assistantC1.sendMessage "hi" false (.ok "fresh" 1 1 "m" none) 5).1.content
      = none ∧
    (assistantC1.sendMessage "hi" false (.ok "fresh" 1 1 "m" none) 5).1.fromCache
      = false := by
  decide

/-- The over-budget assistant of `assistantC1` with its limit raised to `1`,
so the budget gate passes. -/
def assistantC1ok : CleverAssistant :=
  { assistantC1 with tokenTracker := TokenTracker.init 1 }

theorem sendMessage_cache_hit_witness :
    ((¬ assistantC1ok.tokenTracker.budgetLimit ≤
        assistantC1ok.tokenTracker.getTotalCost) ∧
     assistantC1ok.cache.enabled = true ∧
     mapLookup assistantC1ok.cache.cache (assistantC1ok.derivedCacheKey "hi") =
       some ⟨"cached", 0, 3600000, 0⟩ ∧
     CacheItem.isExpired (⟨"cached", 0, 3600000, 0⟩ : CacheItem String) 5 = false ∧
     ("cached" : String) ≠ "") ∧
    ((assistantC1ok.sendMessage "hi" false (.ok "x" 1 1 "m" none) 5).1 =
       { success := true, content := some "cached", fromCache := true } ∧
     (assistantC1ok.sendMessage "hi" false (.ok "x" 1 1 "m" none) 5).1.usage = none ∧
     (assistantC1ok.sendMessage "hi" false
        (.ok "x" 1 1 "m" none) 5).2.1.conversation.conversationHistory =
       assistantC1ok.conversation.conversationHistory ++
         [⟨.user, "hi", 5⟩, ⟨.assistant, "cached", 5⟩] ∧
     (assistantC1ok.sendMessage "hi" false (.ok "x" 1 1 "m" none) 5).2.1.tokenTracker =
       assistantC1ok.tokenTracker ∧
     (assistantC1ok.sendMessage "hi" false (.ok "x" 1 1 "m" none) 5).2.2 = false) :=
  ⟨⟨by decide, rfl, by decide, by decide, by decide⟩,
   sendMessage_cache_hit assistantC1ok "hi" (.ok "x" 1 1 "m" none) 5
     ⟨"cached", 0, 3600000, 0⟩ (by decide) rfl (by decide) (by decide) (by decide)⟩

/-- `assistantC1ok` with `maxTokens := 1000`. -/
def assistantM1 : CleverAssistant :=
  { assistantC1ok with conversation := { conversationT1 with maxTokens := 1000 } }

/-- `assistantC1ok` with `maxTokens := 1500`. -/
def assistantM2 : CleverAssistant :=
  { assistantC1ok with conversation := { conversationT1 with maxTokens := 1500 } }

/-- C2 counterexample: two pipeline states that differ ONLY in the
conversation's `maxTokens` (1000 vs 1500) derive the identical cache key —
`sendMessage` never passes `maxTokens` to `generateKey`, so changing
`maxTokens` alone cannot change the key. -/
theorem derivedCacheKey_ignores_maxTokens :
    assistantM1.conversation.maxTokens = 1000 ∧
    assistantM2.conversation.maxTokens = 1500 ∧
    assistantM1.conversation.model = assistantM2.conversation.model ∧
    assistantM1.conversation.temperature = assistantM2.conversation.temperature ∧
    assistantM1.conversation.systemPrompt = assistantM2.conversation.systemPrompt ∧
    assistantM1.derivedCacheKey "hi" = assistantM2.derivedCacheKey "hi" := by
  decide

/-- C2 (amended): the pipeline's cache key is a pure function of the FOUR
inputs (messageText, model, temperature, systemPrompt): two requests derive
equal canonical key data iff those four inputs coincide (for non-empty model
names).  The key written to the cache is the truncated hash of this canonical
data, so equal data yields the identical key and distinct data yields distinct
keys up to a truncated-hash collision.  `maxTokens` is not an input: the
pipeline omits it, so the configured default always applies. -/
theorem derivedCacheKey_four_inputs (a1 a2 : CleverAssistant) (u1 u2 : String)
    (hm1 : a1.conversation.model ≠ "") (hm2 : a2.conversation.model ≠ "") :
    a1.derivedCacheKey u1 = a2.derivedCacheKey u2 ↔
      (u1 = u2 ∧ a1.conversation.model = a2.conversation.model ∧
       a1.conversation.temperature = a2.conversation.temperature ∧
       a1.conversation.systemPrompt = a2.conversation.systemPrompt) := by
  simp [CleverAssistant.derivedCacheKey, CacheManager.generateKey, KeyData.mk.injEq,
        jsOrStr, hm1, hm2]

theorem derivedCacheKey_four_inputs_witness :
    (assistantM1.conversation.model ≠ "" ∧ assistantM2.conversation.model ≠ "") ∧
    (assistantM1.derivedCacheKey "hi" = assistantM2.derivedCacheKey "hello" ↔
      ("hi" = "hello" ∧
       assistantM1.conversation.model = assistantM2.conversation.model ∧
       assistantM1.conversation.temperature = assistantM2.conversation.temperature ∧
       assistantM1.conversation.systemPrompt = assistantM2.conversation.systemPrompt)) :=
  ⟨⟨by decide, by decide⟩,
   derivedCacheKey_four_inputs assistantM1 assistantM2 "hi" "hello"
     (by decide) (by decide)⟩

/-! ## Persistence round-trip (C9) -/

theorem nodup_keys_mapInsert [DecidableEq κ] (l : List (κ × β)) (k : κ) (v : β)
    (h : (l.map Prod.fst).Nodup) : ((mapInsert l k v).map Prod.fst).Nodup := by
  by_cases hk : k ∈ l.map Prod.fst
  · rw [keys_mapInsert_of_mem _ _ _ hk]
    exact h
  · rw [keys_mapInsert_of_not_mem _ _ _ hk, List.nodup_append]
    refine ⟨h, List.nodup_singleton k, ?_⟩
    intro a ha hb
    rw [List.mem_singleton] at hb
    subst hb
    exact hk ha

/-- After an enabled `set`, the cache is `mapInsert` of some base list (the
original entries, or the entries after one LRU eviction) with the fresh item;
the base keeps key uniqueness. -/
theorem set_cache_shape [DecidableEq κ] (c : CacheManager κ α) (now : Nat) (k : κ)
    (v : α) (ttl : Option Nat) (hen : c.enabled = true) :
    ∃ base : List (κ × CacheItem α),
      (c.set now k v ttl).2.cache =
        mapInsert base k ⟨v, now, jsOrNat ttl c.defaultTTL, 0⟩ ∧
      ((c.cache.map Prod.fst).Nodup → (base.map Prod.fst).Nodup) := by
  by_cases hcond : c.maxSize ≤ c.cache.length ∧ mapHas c.cache k = false
  · refine ⟨(c.evictLRU).cache, ?_, ?_⟩
    · rw [set_enabled c now k v ttl hen, if_pos hcond]
    · intro hnd
      unfold CacheManager.evictLRU
      cases hov : c.accessOrder with
      | nil => exact hnd
      | cons lru rest =>
          show ((mapRemove c.cache lru).map Prod.fst).Nodup
          rw [keys_mapRemove]
          exact hnd.filter _
  · refine ⟨c.cache, ?_, fun hnd => hnd⟩
    rw [set_enabled c now k v ttl hen, if_neg hcond]

/-- C9: with an enabled cache (persistence on), `set(k, v, ttl)` followed by
`save`, then `load` of that snapshot into a fresh enabled manager, yields a
`get(k)` hit returning `v` provided the entry's age at load time is strictly
below its ttl; the saved stats are restored verbatim; and every saved entry
whose age at load time is at least its ttl is dropped during the load. -/
theorem cache_persistence_roundtrip [DecidableEq κ] (c c0 : CacheManager κ α)
    (k : κ) (v : α) (ttl : Option Nat) (nowSet nowSave nowLoad : Nat)
    (hen : c.enabled = true) (hen0 : c0.enabled = true)
    (_hpers : c.persistenceEnabled = true)
    (hnd : (c.cache.map Prod.fst).Nodup)
    (hfresh : (nowLoad : ℤ) - (nowSet : ℤ) < (jsOrNat ttl c.defaultTTL : ℤ)) :
    (((c0.load ((c.set nowSet k v ttl).2.save nowSave) nowLoad).get nowLoad k).1 =
        some v ∧
     (c0.load ((c.set nowSet k v ttl).2.save nowSave) nowLoad).stats =
       (c.set nowSet k v ttl).2.stats) ∧
    ∀ it ∈ ((c.set nowSet k v ttl).2.save nowSave).cache,
      (it.ttl : ℤ) ≤ (nowLoad : ℤ) - (it.createdAt : ℤ) →
      it.key ∉
        (c0.load ((c.set nowSet k v ttl).2.save nowSave) nowLoad).cache.map
          Prod.fst := by
  obtain ⟨base, hcache, hbnd⟩ := set_cache_shape c nowSet k v ttl hen
  have hmem1 : (k, (⟨v, nowSet, jsOrNat ttl c.defaultTTL, 0⟩ : CacheItem α)) ∈
      (c.set nowSet k v ttl).2.cache := by
    rw [hcache]
    exact mem_mapInsert_self base k _
  have hnd1 : ((c.set nowSet k v ttl).2.cache.map Prod.fst).Nodup := by
    rw [hcache]
    exact nodup_keys_mapInsert base k _ (hbnd hnd)
  -- keys are preserved by serialization and restricted by the load filter
  have hdatakeys : ((c.set nowSet k v ttl).2.save nowSave).cache.map
      (fun it => it.key) = (c.set nowSet k v ttl).2.cache.map Prod.fst := by
    show ((c.set nowSet k v ttl).2.cache.map _).map _ = _
    rw [List.map_map]
    rfl
  have hloadkeys :
      (c0.load ((c.set nowSet k v ttl).2.save nowSave) nowLoad).cache.map Prod.fst =
      (((c.set nowSet k v ttl).2.save nowSave).cache.filter
        (fun it => decide ((nowLoad : ℤ) - (it.createdAt : ℤ) < (it.ttl : ℤ)))).map
        (fun it => it.key) := by
    show ((((c.set nowSet k v ttl).2.save nowSave).cache.filter _).map _).map _ = _
    rw [List.map_map]
    rfl
  have hndload :
      ((c0.load ((c.set nowSet k v ttl).2.save nowSave) nowLoad).cache.map
        Prod.fst).Nodup := by
    rw [hloadkeys]
    refine List.Nodup.sublist (List.Sublist.map _ (List.filter_sublist _)) ?_
    rw [hdatakeys]
    exact hnd1
  refine ⟨⟨?_, rfl⟩, ?_⟩
  · -- the freshly set entry survives the load and is a hit
    have hsaved : (⟨k, v, nowSet, jsOrNat ttl c.defaultTTL, 0⟩ : SavedItem κ α) ∈
        ((c.set nowSet k v ttl).2.save nowSave).cache :=
      List.mem_map_of_mem _ hmem1
    have hpass : (fun (it : SavedItem κ α) =>
        decide ((nowLoad : ℤ) - (it.createdAt : ℤ) < (it.ttl : ℤ)))
        (⟨k, v, nowSet, jsOrNat ttl c.defaultTTL, 0⟩ : SavedItem κ α) = true := by
      simpa using hfresh
    have hkept : (⟨k, v, nowSet, jsOrNat ttl c.defaultTTL, 0⟩ : SavedItem κ α) ∈
        ((c.set nowSet k v ttl).2.save nowSave).cache.filter
          (fun it => decide ((nowLoad : ℤ) - (it.createdAt : ℤ) < (it.ttl : ℤ))) :=
      List.mem_filter.mpr ⟨hsaved, hpass⟩
    have hloadmem : (k, (⟨v, nowSet, jsOrNat ttl c.defaultTTL, 0⟩ : CacheItem α)) ∈
        (c0.load ((c.set nowSet k v ttl).2.save nowSave) nowLoad).cache :=
      List.mem_map_of_mem _ hkept
    have hlook : mapLookup
        (c0.load ((c.set nowSet k v ttl).2.save nowSave) nowLoad).cache k =
        some (⟨v, nowSet, jsOrNat ttl c.defaultTTL, 0⟩ : CacheItem α) :=
      mapLookup_eq_some_of_mem_of_nodup _ _ _ hloadmem hndload
    have hnotexp : (⟨v, nowSet, jsOrNat ttl c.defaultTTL, 0⟩ :
        CacheItem α).isExpired nowLoad = false := by
      simp only [CacheItem.isExpired, decide_eq_false_iff_not]
      omega
    have henL : (c0.load ((c.set nowSet k v ttl).2.save nowSave) nowLoad).enabled =
        true := hen0
    rw [get_hit _ nowLoad k _ henL hlook hnotexp]
  · -- stale snapshot entries are dropped
    intro it hit hstale hmemkeys
    rw [hloadkeys] at hmemkeys
    obtain ⟨it', hit', hkeyeq⟩ := List.mem_map.mp hmemkeys
    obtain ⟨hit'data, hpred⟩ := List.mem_filter.mp hit'
    have hinj := List.inj_on_of_nodup_map (hdatakeys ▸ hnd1)
    have heq : it' = it := hinj hit'data hit hkeyeq
    subst heq
    rw [decide_eq_true_eq] at hpred
    omega

/-- A fresh enabled cache with persistence on. -/
def freshCache : CacheManager String String :=
  CacheManager.mk0 String String true 100 true

theorem cache_persistence_roundtrip_witness :
    (freshCache.enabled = true ∧ freshCache.persistenceEnabled = true ∧
     (freshCache.cache.map Prod.fst).Nodup ∧
     (((2 : Nat) : ℤ) - ((0 : Nat) : ℤ) <
       ((jsOrNat none freshCache.defaultTTL : Nat) : ℤ))) ∧
    ((((freshCache.load ((freshCache.set 0 "key" "value" none).2.save 1) 2).get 2
        "key").1 = some "value" ∧
      (freshCache.load ((freshCache.set 0 "key" "value" none).2.save 1) 2).stats =
        (freshCache.set 0 "key" "value" none).2.stats) ∧
     ∀ it ∈ ((freshCache.set 0 "key" "value" none).2.save 1).cache,
       (it.ttl : ℤ) ≤ ((2 : Nat) : ℤ) - (it.createdAt : ℤ) →
       it.key ∉ (freshCache.load ((freshCache.set 0 "key" "value" none).2.save 1)
         2).cache.map Prod.fst) :=
  ⟨⟨rfl, rfl, by decide, by decide⟩,
   cache_persistence_roundtrip freshCache freshCache "key" "value" none 0 1 2
     rfl rfl rfl (by decide) (by decide)⟩

theorem get_after_ttl_expires_entry_witness :
    (boundaryCache.enabled = true ∧
     mapLookup boundaryCache.cache "k" =
       some (⟨"v", 0, 5, 0⟩ : CacheItem String) ∧
     (((6 : Nat) : ℤ) - (((⟨"v", 0, 5, 0⟩ : CacheItem String).createdAt : Nat) : ℤ) >
       (((⟨"v", 0, 5, 0⟩ : CacheItem String).ttl : Nat) : ℤ))) ∧
    ((boundaryCache.get 6 "k").1 = none ∧
     mapLookup (boundaryCache.get 6 "k").2.cache "k" = none ∧
     (boundaryCache.get 6 "k").2.stats.misses = boundaryCache.stats.misses + 1) :=
  ⟨⟨rfl, by decide, by decide⟩,
   get_after_ttl_expires_entry boundaryCache 6 "k" ⟨"v", 0, 5, 0⟩ rfl (by decide)
     (by decide)⟩
